import Mathlib

set_option maxHeartbeats 1000000
set_option maxRecDepth 10000

/-!
Verification development for the `pid2png` PID decoder.

The repository has two near-duplicate decoders of the legacy "PID" indexed
bitmap format: a standalone converter (`src/main.rs`, reading from a byte
slice through a `Cursor`) and an embedded `no_std` variant (`src/lib.rs`,
reading through host calls `get_pid_data_*` and writing pixels into a
host-allocated buffer).  Both are embedded here shallowly: a byte stream is a
`List Nat` of byte values, a cursor is explicit list threading, every fallible
read returns `Option`, and 32-bit machine arithmetic is `Nat` arithmetic
reduced `% 2^32` where the source wraps.  Reads past the end of the stream
(a `bytes` crate panic in the standalone converter, undefined host behaviour
in the embedded one) and out-of-bounds buffer writes (a `no_std` panic in the
embedded variant) are modelled as `none`.
-/

/-- A genuine byte stream: every element is a byte value. -/
def ByteStream (s : List Nat) : Prop := ∀ b ∈ s, b < 256

instance (s : List Nat) : Decidable (ByteStream s) := by
  unfold ByteStream; infer_instance

/-- `Cursor::get_u8` / host `get_pid_data_u8`: one byte, advancing the cursor. -/
def readU8 : List Nat → Option (Nat × List Nat)
  | [] => none
  | b :: rest => some (b, rest)

/-- `Cursor::get_u32_le` / host `get_pid_data_u32_le`: four bytes, little endian. -/
def readU32le : List Nat → Option (Nat × List Nat)
  | b0 :: b1 :: b2 :: b3 :: rest =>
    some (b0 + 256 * b1 + 65536 * b2 + 16777216 * b3, rest)
  | _ => none

/-- Reinterpret an unsigned 32-bit value as a signed `i32`. -/
def toI32 (u : Nat) : Int :=
  if u % 4294967296 < 2147483648 then ((u % 4294967296 : Nat) : Int)
  else ((u % 4294967296 : Nat) : Int) - 4294967296

/-- `Cursor::get_i32_le` / host `get_pid_data_i32_le`: four bytes, little endian, signed. -/
def readI32le (s : List Nat) : Option (Int × List Nat) :=
  match readU32le s with
  | none => none
  | some (u, rest) => some (toI32 u, rest)

/-- `Cursor::get_i32` of the `bytes` crate, used by `main.rs` for the user
values: four bytes, BIG endian, signed. -/
def readI32be : List Nat → Option (Int × List Nat)
  | b0 :: b1 :: b2 :: b3 :: rest =>
    some (toI32 (16777216 * b0 + 65536 * b1 + 256 * b2 + b3), rest)
  | _ => none

/-- Read exactly `n` bytes from the stream, failing if fewer remain. -/
def takeExact (n : Nat) (s : List Nat) : Option (List Nat × List Nat) :=
  if n ≤ s.length then some (s.take n, s.drop n) else none

/-- The little-endian byte serialisation of a 32-bit value, as laid out in a
PID header (and in the embedded output buffer's width/height fields). -/
def le4 (n : Nat) : List Nat :=
  [n % 256, n / 256 % 256, n / 65536 % 256, n / 16777216 % 256]

/-- The 32-bit flag word of a PID header (`struct ImageFlags` in both files). -/
structure ImageFlags where
  flags : Nat
deriving DecidableEq, Repr

/-- The compression-method selector (`enum CompressionMethod`). -/
inductive CompressionMethod
  | Default
  | RunLengthEncoding
deriving DecidableEq, Repr

def ImageFlags.use_transparency (f : ImageFlags) : Bool := f.flags &&& 1 != 0

def ImageFlags.use_video_memory (f : ImageFlags) : Bool := f.flags &&& 2 != 0

def ImageFlags.use_system_memory (f : ImageFlags) : Bool := f.flags &&& 4 != 0

def ImageFlags.is_fliped_horizontally (f : ImageFlags) : Bool := f.flags &&& 8 != 0

def ImageFlags.is_fliped_vertically (f : ImageFlags) : Bool := f.flags &&& 16 != 0

def ImageFlags.compression_method (f : ImageFlags) : CompressionMethod :=
  if f.flags &&& 32 = 0 then CompressionMethod.Default
  else CompressionMethod.RunLengthEncoding

def ImageFlags.has_lights (f : ImageFlags) : Bool := f.flags &&& 64 != 0

def ImageFlags.has_palette (f : ImageFlags) : Bool := f.flags &&& 128 != 0

/-- An RGB palette entry (`Rgb<u8>` in `main.rs`, `struct Rgb` in `lib.rs`). -/
structure Rgb where
  r : Nat
  g : Nat
  b : Nat
deriving DecidableEq, Repr

/-- The decoded image (`struct PidImage`, identical in both files). -/
structure PidImage where
  id : Int
  flags : ImageFlags
  width : Nat
  height : Nat
  user_values : List Int
  pixels : List Nat
  palette : Option (List Rgb)
deriving DecidableEq, Repr

/-- `decompress_default` of `main.rs`: the `while pixels.len() < pixels_count`
loop pushing onto a growable `Vec`.  A control byte above 192 encodes a run
of `a - 192` copies of the next byte; any other byte is a single literal
pixel.  The run body never rechecks the count, so a run is always pushed in
full.  Running out of stream bytes is the `bytes` crate panic, i.e. `none`. -/
def decompress_default (s : List Nat) (pixels_count : Nat) (pixels : List Nat) :
    Option (List Nat × List Nat) :=
  if pixels.length < pixels_count then
    match s with
    | [] => none
    | a :: rest =>
      if 192 < a then
        match rest with
        | [] => none
        | b :: rest2 =>
          decompress_default rest2 pixels_count (pixels ++ List.replicate (a - 192) b)
      else
        decompress_default rest pixels_count (pixels ++ [a])
  else
    some (pixels, s)

/-- `decompress_run_length_encoding` of `main.rs`.  A control byte above 128
writes `a - 128` zero pixels; otherwise `a` literal bytes are copied verbatim
from the stream (`a = 0` copies nothing but still consumed the control
byte).  As above, a block is always pushed in full once begun. -/
def decompress_run_length_encoding (s : List Nat) (pixels_count : Nat) (pixels : List Nat) :
    Option (List Nat × List Nat) :=
  if pixels.length < pixels_count then
    match s with
    | [] => none
    | a :: rest =>
      if 128 < a then
        decompress_run_length_encoding rest pixels_count (pixels ++ List.replicate (a - 128) 0)
      else
        match h : takeExact a rest with
        | none => none
        | some (lits, rest2) =>
          decompress_run_length_encoding rest2 pixels_count (pixels ++ lits)
  else
    some (pixels, s)
termination_by s.length
decreasing_by
  · simp
  · unfold takeExact at h
    split at h
    · cases h; simp [List.length_drop]; omega
    · cases h

/-- `decompress_default` of `lib.rs`: same control flow, but each pixel is
written at index `pixel` into a fixed buffer of `pixels_count` bytes, so a
run that would overshoot the buffer is an out-of-bounds write, i.e. a
`no_std` panic, modelled as `none`. -/
def decompress_default_wasm (s : List Nat) (pixels_count : Nat) (pixels : List Nat) :
    Option (List Nat × List Nat) :=
  if pixels.length < pixels_count then
    match s with
    | [] => none
    | a :: rest =>
      if 192 < a then
        match rest with
        | [] => none
        | b :: rest2 =>
          if pixels.length + (a - 192) ≤ pixels_count then
            decompress_default_wasm rest2 pixels_count (pixels ++ List.replicate (a - 192) b)
          else none
      else
        decompress_default_wasm rest pixels_count (pixels ++ [a])
  else
    some (pixels, s)

/-- `decompress_run_length_encoding` of `lib.rs`, with the same fixed-buffer
bound as `decompress_default_wasm`: an overshooting block is an out-of-bounds
write, modelled as `none`.  The loop is written against an explicit iteration
bound (`fuel`): every iteration consumes at least the control byte from the
stream, so `s.length` iterations always suffice
(`decompress_rle_wasm_fuel_invariant` below makes this exact). -/
def decompress_run_length_encoding_wasm_fuel :
    Nat → List Nat → Nat → List Nat → Option (List Nat × List Nat)
  | fuel, s, pixels_count, pixels =>
    if pixels.length < pixels_count then
      match fuel with
      | 0 => none
      | fuel + 1 =>
        match s with
        | [] => none
        | a :: rest =>
          if 128 < a then
            if pixels.length + (a - 128) ≤ pixels_count then
              decompress_run_length_encoding_wasm_fuel fuel rest pixels_count
                (pixels ++ List.replicate (a - 128) 0)
            else none
          else
            match takeExact a rest with
            | none => none
            | some (lits, rest2) =>
              if pixels.length + a ≤ pixels_count then
                decompress_run_length_encoding_wasm_fuel fuel rest2 pixels_count (pixels ++ lits)
              else none
    else
      some (pixels, s)

/-- `decompress_run_length_encoding` of `lib.rs` (see
`decompress_run_length_encoding_wasm_fuel`). -/
def decompress_run_length_encoding_wasm (s : List Nat) (pixels_count : Nat)
    (pixels : List Nat) : Option (List Nat × List Nat) :=
  decompress_run_length_encoding_wasm_fuel s.length s pixels_count pixels

/-- Group a flat byte list into RGB triplets (the palette layout: 256
contiguous `{r,g,b}` triplets, no padding). -/
def toRgbs : List Nat → List Rgb
  | r :: g :: b :: rest => ⟨r, g, b⟩ :: toRgbs rest
  | _ => []

/-- The palette read of both variants: exactly 256 × 3 bytes immediately
after the pixel data (`read_exact` in `main.rs`, 768 `next_u8` calls in
`lib.rs`); a shorter stream is a panic, i.e. `none`. -/
def readPalette (s : List Nat) : Option (List Rgb × List Nat) :=
  match takeExact 768 s with
  | none => none
  | some (bs, rest) => some (toRgbs bs, rest)

/-- `decode_pid` of `main.rs`, also returning the unconsumed remainder of the
stream (the final cursor position).  Field order: `id` (i32 LE), `flags`
(u32 LE), `width` (u32 LE), `height` (u32 LE), then the four user values
read with `get_i32` — BIG endian.  `pixels_count` is the u32 product
`width * height`, wrapping modulo `2^32`. -/
def decode_pid_rest (s : List Nat) : Option (PidImage × List Nat) :=
  match readU32le s with
  | none => none
  | some (idu, s1) =>
    match readU32le s1 with
    | none => none
    | some (flagsw, s2) =>
      match readU32le s2 with
      | none => none
      | some (width, s3) =>
        match readU32le s3 with
        | none => none
        | some (height, s4) =>
          match readI32be s4 with
          | none => none
          | some (u0, s5) =>
            match readI32be s5 with
            | none => none
            | some (u1, s6) =>
              match readI32be s6 with
              | none => none
              | some (u2, s7) =>
                match readI32be s7 with
                | none => none
                | some (u3, s8) =>
                  let flags : ImageFlags := ⟨flagsw⟩
                  let pixels_count := width * height % 4294967296
                  match (match flags.compression_method with
                         | CompressionMethod.Default =>
                           decompress_default s8 pixels_count []
                         | CompressionMethod.RunLengthEncoding =>
                           decompress_run_length_encoding s8 pixels_count []) with
                  | none => none
                  | some (pixels, s9) =>
                    if flags.has_palette then
                      match readPalette s9 with
                      | none => none
                      | some (pal, s10) =>
                        some (⟨toI32 idu, flags, width, height, [u0, u1, u2, u3],
                               pixels, some pal⟩, s10)
                    else
                      some (⟨toI32 idu, flags, width, height, [u0, u1, u2, u3],
                             pixels, none⟩, s9)

/-- `decode_pid` of `main.rs` (the decoded image alone). -/
def decode_pid (s : List Nat) : Option PidImage :=
  (decode_pid_rest s).map Prod.fst

/-- `decode_pid` of `lib.rs`, reading the same layout through the host calls
(the host serves the bytes of `s` by offset; a read past the end is host
UB, modelled as `none`).  The one layout difference from `main.rs`: the four
user values are read with `next_i32_le` — LITTLE endian. -/
def decode_pid_wasm (s : List Nat) : Option PidImage :=
  match readI32le s with
  | none => none
  | some (id, s1) =>
    match readU32le s1 with
    | none => none
    | some (flagsw, s2) =>
      match readU32le s2 with
      | none => none
      | some (width, s3) =>
        match readU32le s3 with
        | none => none
        | some (height, s4) =>
          match readI32le s4 with
          | none => none
          | some (u0, s5) =>
            match readI32le s5 with
            | none => none
            | some (u1, s6) =>
              match readI32le s6 with
              | none => none
              | some (u2, s7) =>
                match readI32le s7 with
                | none => none
                | some (u3, s8) =>
                  let flags : ImageFlags := ⟨flagsw⟩
                  let pixels_count := width * height % 4294967296
                  match (match flags.compression_method with
                         | CompressionMethod.Default =>
                           decompress_default_wasm s8 pixels_count []
                         | CompressionMethod.RunLengthEncoding =>
                           decompress_run_length_encoding_wasm s8 pixels_count []) with
                  | none => none
                  | some (pixels, s9) =>
                    if flags.has_palette then
                      match readPalette s9 with
                      | none => none
                      | some (pal, s10) =>
                        some ⟨id, flags, width, height, [u0, u1, u2, u3],
                              pixels, some pal⟩
                    else
                      some ⟨id, flags, width, height, [u0, u1, u2, u3],
                            pixels, none⟩

/-- The per-pixel colour resolution shared by `pid_image_to_image_buffer`
(`main.rs`) and `write_pid_to_canvas_image_data` (`lib.rs`): transparent
black for index 0 under the transparency flag, otherwise the palette entry
with alpha 255. -/
def resolve_color (flags : ImageFlags) (palette : List Rgb) (p : Nat) :
    Nat × Nat × Nat × Nat :=
  if flags.use_transparency ∧ p = 0 then (0, 0, 0, 0)
  else
    let c := palette.getD p ⟨0, 0, 0⟩
    (c.r, c.g, c.b, 255)

/-- The four bytes of an RGBA quad in output order R,G,B,A. -/
def quadBytes (q : Nat × Nat × Nat × Nat) : List Nat :=
  [q.1, q.2.1, q.2.2.1, q.2.2.2]

/-- The flat RGBA bytes produced by resolving pixels `0..n` in order. -/
def rgbaQuads (flags : ImageFlags) (palette : List Rgb) (pixels : List Nat) (n : Nat) :
    List Nat :=
  ((List.range n).map (fun i => quadBytes (resolve_color flags palette (pixels.getD i 0)))).flatten

/-- `pid_image_to_image_buffer` of `main.rs` as its flat RGBA byte buffer:
`ImageBuffer::new` zero-initialises `4*width*height` bytes; the pixel loop
runs only under `if let Some(palette)`, writing each pixel exactly once in
row-major order. -/
def pid_image_to_image_buffer (img : PidImage) : List Nat :=
  match img.palette with
  | none => List.replicate (4 * (img.width * img.height)) 0
  | some pal => rgbaQuads img.flags pal img.pixels (img.width * img.height)

/-- `write_pid_to_canvas_image_data` of `lib.rs` as the contents of the
host-allocated output buffer: a `[width][height]` little-endian prefix, then
`4 * (width*height mod 2^32)` RGBA bytes (zero-initialised fresh wasm memory,
written only under `if let Some(palette)`). -/
def write_pid_to_canvas_image_data (s : List Nat) : Option (List Nat) :=
  (decode_pid_wasm s).map (fun img =>
    let pc := img.width * img.height % 4294967296
    le4 img.width ++ le4 img.height ++
      (match img.palette with
       | none => List.replicate (4 * pc) 0
       | some pal => rgbaQuads img.flags pal img.pixels pc))

/-- Length of the leading run of `b` at the head of a list. -/
def countRun (b : Nat) : List Nat → Nat
  | [] => 0
  | x :: xs => if x = b then countRun b xs + 1 else 0

/-- Length of the leading block of nonzero values at the head of a list. -/
def countNonzero : List Nat → Nat
  | [] => 0
  | x :: xs => if x = 0 then 0 else countNonzero xs + 1

/-- Modelled from the spec: an encoder for the "Default" scheme (no such
encoder exists in the repository; §4.3 and the round-trip property of §8
describe it): a maximal run of up to 63 equal bytes becomes a control byte
`192 + n` followed by the run value, and a lone byte `≤ 192` is emitted
literally. -/
def encode_default_spec : List Nat → List Nat
  | [] => []
  | b :: rest =>
    let n := min (countRun b rest + 1) 63
    if n = 1 ∧ b ≤ 192 then b :: encode_default_spec rest
    else (192 + n) :: b :: encode_default_spec (rest.drop (n - 1))
termination_by l => l.length
decreasing_by
  all_goals simp [List.length_drop]
  all_goals omega

/-- Modelled from the spec: an encoder for the "RunLengthEncoding" scheme
(§4.4, §8): a maximal run of up to 127 zero bytes becomes a control byte
`128 + j`, and a maximal block of up to 128 nonzero bytes becomes its length
`k ≤ 128` followed by the `k` bytes verbatim. -/
def encode_rle_spec : List Nat → List Nat
  | [] => []
  | b :: rest =>
    if b = 0 then
      let j := min (countRun 0 rest + 1) 127
      (128 + j) :: encode_rle_spec ((b :: rest).drop j)
    else
      let k := min (countNonzero rest + 1) 128
      k :: ((b :: rest).take k ++ encode_rle_spec ((b :: rest).drop k))
termination_by l => l.length
decreasing_by
  all_goals simp [List.length_drop]
  all_goals omega

/-- Fuel-indexed copy of `decompress_default`, one fuel unit per loop
iteration; `none` when the fuel runs out with the loop still unfinished. -/
def decompress_default_fuel : Nat → List Nat → Nat → List Nat → Option (List Nat × List Nat)
  | fuel, s, pixels_count, pixels =>
    if pixels.length < pixels_count then
      match fuel with
      | 0 => none
      | fuel + 1 =>
        match s with
        | [] => none
        | a :: rest =>
          if 192 < a then
            match rest with
            | [] => none
            | b :: rest2 =>
              decompress_default_fuel fuel rest2 pixels_count
                (pixels ++ List.replicate (a - 192) b)
          else
            decompress_default_fuel fuel rest pixels_count (pixels ++ [a])
    else
      some (pixels, s)

/-- Fuel-indexed copy of `decompress_run_length_encoding`. -/
def decompress_run_length_encoding_fuel :
    Nat → List Nat → Nat → List Nat → Option (List Nat × List Nat)
  | fuel, s, pixels_count, pixels =>
    if pixels.length < pixels_count then
      match fuel with
      | 0 => none
      | fuel + 1 =>
        match s with
        | [] => none
        | a :: rest =>
          if 128 < a then
            decompress_run_length_encoding_fuel fuel rest pixels_count
              (pixels ++ List.replicate (a - 128) 0)
          else
            match takeExact a rest with
            | none => none
            | some (lits, rest2) =>
              decompress_run_length_encoding_fuel fuel rest2 pixels_count (pixels ++ lits)
    else
      some (pixels, s)

/-- The signed 32-bit value denoted by four bytes in BIG-endian order (the
`bytes` crate `get_i32` layout used by `main.rs` for the user values). -/
def i32be (b0 b1 b2 b3 : Nat) : Int :=
  toI32 (16777216 * b0 + 65536 * b1 + 256 * b2 + b3)

/-- The signed 32-bit value denoted by four bytes in LITTLE-endian order
(the layout used by `lib.rs` for the user values). -/
def i32le (b0 b1 b2 b3 : Nat) : Int :=
  toI32 (b0 + 256 * b1 + 65536 * b2 + 16777216 * b3)

/-- The tail of `decode_pid` of `main.rs` after the 32 header bytes have been
read: pixel decompression, then the optional palette. -/
def decode_pid_after (idu flagsw width height : Nat) (uvs : List Int) (s8 : List Nat) :
    Option (PidImage × List Nat) :=
  let flags : ImageFlags := ⟨flagsw⟩
  let pixels_count := width * height % 4294967296
  match (match flags.compression_method with
         | CompressionMethod.Default => decompress_default s8 pixels_count []
         | CompressionMethod.RunLengthEncoding =>
           decompress_run_length_encoding s8 pixels_count []) with
  | none => none
  | some (pixels, s9) =>
    if flags.has_palette then
      match readPalette s9 with
      | none => none
      | some (pal, s10) =>
        some (⟨toI32 idu, flags, width, height, uvs, pixels, some pal⟩, s10)
    else
      some (⟨toI32 idu, flags, width, height, uvs, pixels, none⟩, s9)

/-- A PID input with `width = height = 0` but the palette flag (0x80) set,
followed by exactly the 768 palette bytes. -/
def c4_input : List Nat :=
  le4 0 ++ le4 128 ++ le4 0 ++ le4 0 ++ List.replicate 16 0 ++ List.replicate 768 0

example : decompress_default [194, 5] 1 [] = some ([5, 5], []) := by decide

example : decompress_default [0, 200, 3] 3 [] =
    some ([0, 3, 3, 3, 3, 3, 3, 3, 3], []) := by decide

example : decompress_default [0, 193, 200, 3] 3 [] = some ([0, 200, 3], []) := by decide

example : encode_default_spec [0, 200, 3] = [0, 193, 200, 3] := by
  simp [encode_default_spec, countRun]

example : encode_rle_spec [0, 0, 7, 8] = [130, 2, 7, 8] := by
  simp [encode_rle_spec, countRun, countNonzero]

example : decompress_run_length_encoding [130, 2, 7, 8] 4 [] = some ([0, 0, 7, 8], []) := by
  simp [decompress_run_length_encoding, takeExact]

/-! ### Step equations for the decompression loops -/

theorem takeExact_lengths {n : Nat} {s l r : List Nat}
    (h : takeExact n s = some (l, r)) :
    l.length = n ∧ r.length = s.length - n ∧ n ≤ s.length := by
  unfold takeExact at h
  split at h
  · cases h
    refine ⟨?_, by simp, by assumption⟩
    simp [List.length_take]; omega
  · cases h

theorem readU32le_le4 (n : Nat) (r : List Nat) (h : n < 4294967296) :
    readU32le (le4 n ++ r) = some (n, r) := by
  simp only [le4, List.cons_append, List.nil_append, readU32le]
  congr 1
  congr 1
  omega


theorem decompress_default_done {s : List Nat} {count : Nat} {acc : List Nat}
    (h : ¬ acc.length < count) : decompress_default s count acc = some (acc, s) := by
  rw [decompress_default.eq_def]
  simp [h]

theorem decompress_default_nil {count : Nat} {acc : List Nat}
    (h : acc.length < count) : decompress_default [] count acc = none := by
  rw [decompress_default.eq_def]
  simp [h]

theorem decompress_default_run_nil {a count : Nat} {acc : List Nat}
    (h : acc.length < count) (ha : 192 < a) :
    decompress_default [a] count acc = none := by
  rw [decompress_default.eq_def]
  simp [h, ha]

theorem decompress_default_run {a b : Nat} {rest2 : List Nat} {count : Nat} {acc : List Nat}
    (h : acc.length < count) (ha : 192 < a) :
    decompress_default (a :: b :: rest2) count acc =
      decompress_default rest2 count (acc ++ List.replicate (a - 192) b) := by
  rw [decompress_default.eq_def]
  simp [h, ha]

theorem decompress_default_lit {a : Nat} {rest : List Nat} {count : Nat} {acc : List Nat}
    (h : acc.length < count) (ha : ¬ 192 < a) :
    decompress_default (a :: rest) count acc = decompress_default rest count (acc ++ [a]) := by
  rw [decompress_default.eq_def]
  simp [h, ha]

theorem decompress_rle_done {s : List Nat} {count : Nat} {acc : List Nat}
    (h : ¬ acc.length < count) :
    decompress_run_length_encoding s count acc = some (acc, s) := by
  rw [decompress_run_length_encoding.eq_def]
  simp [h]

theorem decompress_rle_nil {count : Nat} {acc : List Nat}
    (h : acc.length < count) : decompress_run_length_encoding [] count acc = none := by
  rw [decompress_run_length_encoding.eq_def]
  simp [h]

theorem decompress_rle_run {a : Nat} {rest : List Nat} {count : Nat} {acc : List Nat}
    (h : acc.length < count) (ha : 128 < a) :
    decompress_run_length_encoding (a :: rest) count acc =
      decompress_run_length_encoding rest count (acc ++ List.replicate (a - 128) 0) := by
  rw [decompress_run_length_encoding.eq_def]
  simp [h, ha]

theorem decompress_rle_lit {a : Nat} {rest lits rest2 : List Nat} {count : Nat} {acc : List Nat}
    (h : acc.length < count) (ha : ¬ 128 < a) (htk : takeExact a rest = some (lits, rest2)) :
    decompress_run_length_encoding (a :: rest) count acc =
      decompress_run_length_encoding rest2 count (acc ++ lits) := by
  rw [decompress_run_length_encoding.eq_def]
  simp only [if_pos h, if_neg ha]
  split
  · rename_i heq
    rw [htk] at heq
    cases heq
  · rename_i l2 r2 heq
    rw [htk] at heq
    cases heq
    rfl

theorem decompress_rle_lit_none {a : Nat} {rest : List Nat} {count : Nat} {acc : List Nat}
    (h : acc.length < count) (ha : ¬ 128 < a) (htk : takeExact a rest = none) :
    decompress_run_length_encoding (a :: rest) count acc = none := by
  rw [decompress_run_length_encoding.eq_def]
  simp only [if_pos h, if_neg ha]
  split
  · rfl
  · rename_i l2 r2 heq
    rw [htk] at heq
    cases heq

theorem decompress_default_wasm_done {s : List Nat} {count : Nat} {acc : List Nat}
    (h : ¬ acc.length < count) : decompress_default_wasm s count acc = some (acc, s) := by
  rw [decompress_default_wasm.eq_def]
  simp [h]

theorem decompress_default_wasm_nil {count : Nat} {acc : List Nat}
    (h : acc.length < count) : decompress_default_wasm [] count acc = none := by
  rw [decompress_default_wasm.eq_def]
  simp [h]

theorem decompress_default_wasm_run {a b : Nat} {rest2 : List Nat} {count : Nat} {acc : List Nat}
    (h : acc.length < count) (ha : 192 < a) (hcap : acc.length + (a - 192) ≤ count) :
    decompress_default_wasm (a :: b :: rest2) count acc =
      decompress_default_wasm rest2 count (acc ++ List.replicate (a - 192) b) := by
  rw [decompress_default_wasm.eq_def]
  simp [h, ha, hcap]

theorem decompress_default_wasm_run_overflow {a b : Nat} {rest2 : List Nat} {count : Nat}
    {acc : List Nat} (h : acc.length < count) (ha : 192 < a)
    (hcap : ¬ acc.length + (a - 192) ≤ count) :
    decompress_default_wasm (a :: b :: rest2) count acc = none := by
  rw [decompress_default_wasm.eq_def]
  simp [h, ha, hcap]

theorem decompress_default_wasm_lit {a : Nat} {rest : List Nat} {count : Nat} {acc : List Nat}
    (h : acc.length < count) (ha : ¬ 192 < a) :
    decompress_default_wasm (a :: rest) count acc =
      decompress_default_wasm rest count (acc ++ [a]) := by
  rw [decompress_default_wasm.eq_def]
  simp [h, ha]

/-- The iteration bound of `decompress_run_length_encoding_wasm_fuel` is
irrelevant as long as it is at least the stream length: each loop iteration
consumes at least one stream byte. -/
theorem decompress_rle_wasm_fuel_invariant :
    ∀ (fuel1 fuel2 : Nat) (s : List Nat), s.length ≤ fuel1 → s.length ≤ fuel2 →
      ∀ count acc,
        decompress_run_length_encoding_wasm_fuel fuel1 s count acc =
          decompress_run_length_encoding_wasm_fuel fuel2 s count acc := by
  intro fuel1
  induction fuel1 with
  | zero =>
    intro fuel2 s hs1 _ count acc
    have hnil : s = [] := List.eq_nil_of_length_eq_zero (Nat.le_zero.mp hs1)
    subst hnil
    cases fuel2 <;> rfl
  | succ fuel1 ih =>
    intro fuel2 s hs1 hs2 count acc
    cases s with
    | nil => cases fuel2 <;> rfl
    | cons a rest =>
      cases fuel2 with
      | zero => simp at hs2
      | succ fuel2 =>
        rw [decompress_run_length_encoding_wasm_fuel,
          decompress_run_length_encoding_wasm_fuel]
        simp only [List.length_cons] at hs1 hs2
        by_cases hlt : acc.length < count
        · simp only [if_pos hlt]
          by_cases ha : 128 < a
          · simp only [if_pos ha]
            by_cases hcap : acc.length + (a - 128) ≤ count
            · simp only [if_pos hcap]
              exact ih fuel2 rest (by omega) (by omega) count _
            · simp only [if_neg hcap]
          · simp only [if_neg ha]
            cases htk : takeExact a rest with
            | none => rfl
            | some p =>
              obtain ⟨lits, rest2⟩ := p
              have hlen2 := takeExact_lengths htk
              by_cases hcap : acc.length + a ≤ count
              · simp only [if_pos hcap]
                exact ih fuel2 rest2 (by omega) (by omega) count _
              · simp only [if_neg hcap]
        · simp only [if_neg hlt]

theorem decompress_rle_wasm_done {s : List Nat} {count : Nat} {acc : List Nat}
    (h : ¬ acc.length < count) :
    decompress_run_length_encoding_wasm s count acc = some (acc, s) := by
  unfold decompress_run_length_encoding_wasm
  rw [decompress_run_length_encoding_wasm_fuel.eq_def]
  simp [h]

theorem decompress_rle_wasm_nil {count : Nat} {acc : List Nat}
    (h : acc.length < count) :
    decompress_run_length_encoding_wasm [] count acc = none := by
  unfold decompress_run_length_encoding_wasm
  rw [decompress_run_length_encoding_wasm_fuel.eq_def]
  simp [h]

theorem decompress_rle_wasm_run {a : Nat} {rest : List Nat} {count : Nat} {acc : List Nat}
    (h : acc.length < count) (ha : 128 < a) (hcap : acc.length + (a - 128) ≤ count) :
    decompress_run_length_encoding_wasm (a :: rest) count acc =
      decompress_run_length_encoding_wasm rest count (acc ++ List.replicate (a - 128) 0) := by
  unfold decompress_run_length_encoding_wasm
  rw [decompress_run_length_encoding_wasm_fuel.eq_def]
  simp [h, ha, hcap]

theorem decompress_rle_wasm_lit {a : Nat} {rest lits rest2 : List Nat} {count : Nat}
    {acc : List Nat} (h : acc.length < count) (ha : ¬ 128 < a)
    (htk : takeExact a rest = some (lits, rest2)) (hcap : acc.length + a ≤ count) :
    decompress_run_length_encoding_wasm (a :: rest) count acc =
      decompress_run_length_encoding_wasm rest2 count (acc ++ lits) := by
  unfold decompress_run_length_encoding_wasm
  rw [decompress_run_length_encoding_wasm_fuel.eq_def]
  have hlens := takeExact_lengths htk
  simp only [List.length_cons, if_pos h, if_neg ha, htk, if_pos hcap]
  exact decompress_rle_wasm_fuel_invariant rest.length rest2.length rest2
    (by omega) le_rfl count (acc ++ lits)

/-! ### Bounds on the decompression loops (claim C1) -/

theorem decompress_default_bounds :
    ∀ (s : List Nat) (count : Nat) (acc : List Nat), ByteStream s →
      ∀ out rest, decompress_default s count acc = some (out, rest) →
      count ≤ out.length ∧ out.length ≤ max acc.length (count + 62) := by
  intro s count acc
  induction s, count, acc using decompress_default.induct with
  | case1 count acc hlt =>
    intro _ out rest h
    rw [decompress_default_nil hlt] at h
    cases h
  | case2 count acc hlt a ha =>
    intro _ out rest h
    rw [decompress_default_run_nil hlt ha] at h
    cases h
  | case3 count acc hlt a ha b rest2 ih =>
    intro hb out rest h
    rw [decompress_default_run hlt ha] at h
    have ha256 : a < 256 := hb a (by simp)
    obtain ⟨h1, h2⟩ := ih (fun x hx => hb x (by simp [hx])) out rest h
    refine ⟨h1, ?_⟩
    have hacc : (acc ++ List.replicate (a - 192) b).length ≤ count + 62 := by
      simp only [List.length_append, List.length_replicate]
      omega
    omega
  | case4 count acc hlt a rest1 ha ih =>
    intro hb out rest h
    rw [decompress_default_lit hlt ha] at h
    obtain ⟨h1, h2⟩ := ih (fun x hx => hb x (by simp [hx])) out rest h
    refine ⟨h1, ?_⟩
    have hacc : (acc ++ [a]).length ≤ count + 62 := by
      simp only [List.length_append, List.length_cons, List.length_nil]
      omega
    omega
  | case5 s count acc hge =>
    intro _ out rest h
    rw [decompress_default_done hge] at h
    obtain ⟨rfl, rfl⟩ : acc = out ∧ s = rest := by simpa using h
    exact ⟨by omega, by omega⟩

theorem decompress_rle_bounds :
    ∀ (s : List Nat) (count : Nat) (acc : List Nat), ByteStream s →
      ∀ out rest, decompress_run_length_encoding s count acc = some (out, rest) →
      count ≤ out.length ∧ out.length ≤ max acc.length (count + 127) := by
  intro s count acc
  induction s, count, acc using decompress_run_length_encoding.induct with
  | case1 count acc hlt =>
    intro _ out rest h
    rw [decompress_rle_nil hlt] at h
    cases h
  | case2 count acc hlt a rest1 ha ih =>
    intro hb out rest h
    rw [decompress_rle_run hlt ha] at h
    have ha256 : a < 256 := hb a (by simp)
    obtain ⟨h1, h2⟩ := ih (fun x hx => hb x (by simp [hx])) out rest h
    refine ⟨h1, ?_⟩
    have hacc : (acc ++ List.replicate (a - 128) 0).length ≤ count + 127 := by
      simp only [List.length_append, List.length_replicate]
      omega
    omega
  | case3 count acc hlt a rest1 ha htk =>
    intro _ out rest h
    rw [decompress_rle_lit_none hlt ha htk] at h
    cases h
  | case4 count acc hlt a rest1 ha lits rest2 htk ih =>
    intro hb out rest h
    rw [decompress_rle_lit hlt ha htk] at h
    have hlens := takeExact_lengths htk
    have hb2 : ByteStream rest2 := by
      intro x hx
      refine hb x ?_
      have hsub : rest2 ⊆ rest1 := by
        unfold takeExact at htk
        split at htk
        · cases htk; exact List.drop_subset _ _
        · cases htk
      simp [hsub hx]
    obtain ⟨h1, h2⟩ := ih hb2 out rest h
    refine ⟨h1, ?_⟩
    have hacc : (acc ++ lits).length ≤ count + 127 := by
      simp only [List.length_append]
      omega
    omega
  | case5 s count acc hge =>
    intro _ out rest h
    rw [decompress_rle_done hge] at h
    obtain ⟨rfl, rfl⟩ : acc = out ∧ s = rest := by simpa using h
    exact ⟨by omega, by omega⟩

/-- C1: the claim that decompression stops having written exactly
`pixels_count` bytes is false: the run/block bodies never recheck the count,
so a trailing run is emitted in full.  Concretely `[194, 5]` (a run of two
fives) decompressed to a count of 1 yields two output bytes, not one. -/
theorem c1_counterexample :
    decompress_default [194, 5] 1 [] = some ([5, 5], []) ∧
    (decompress_default [194, 5] 1 []).map (fun r => r.1.length) ≠ some 1 := by
  decide

/-- C1 (amended): on byte streams, each decompression algorithm stops having
written AT LEAST `pixels_count` index bytes — never fewer — but a trailing
run whose length overshoots `pixels_count` is written in full rather than
truncated, so the output may exceed `pixels_count` by up to 62 bytes
(Default: runs of ≤ 63) or 127 bytes (RunLengthEncoding: blocks of ≤ 128). -/
theorem c1_decompression_length :
    (∀ (s : List Nat) count out rest, ByteStream s →
      decompress_default s count [] = some (out, rest) →
      count ≤ out.length ∧ out.length ≤ count + 62) ∧
    (∀ (s : List Nat) count out rest, ByteStream s →
      decompress_run_length_encoding s count [] = some (out, rest) →
      count ≤ out.length ∧ out.length ≤ count + 127) := by
  constructor
  · intro s count out rest hb h
    have := decompress_default_bounds s count [] hb out rest h
    simpa using this
  · intro s count out rest hb h
    have := decompress_rle_bounds s count [] hb out rest h
    simpa using this

/-- Witness for C1: concrete instances of both conjuncts. -/
theorem c1_decompression_length_witness :
    (1 ≤ ([5, 5] : List Nat).length ∧ ([5, 5] : List Nat).length ≤ 1 + 62) ∧
    (1 ≤ ([0, 0] : List Nat).length ∧ ([0, 0] : List Nat).length ≤ 1 + 127) := by
  refine ⟨c1_decompression_length.1 [194, 5] 1 [5, 5] [] (by decide) (by decide), ?_⟩
  refine c1_decompression_length.2 [130, 2, 7, 8] 1 [0, 0] [2, 7, 8] (by decide) ?_
  simp [decompress_run_length_encoding]

/-- C3: with a palette present, the colour resolver yields transparent black
`(0,0,0,0)` exactly when the transparency flag is set and the pixel index is
zero; in every other case it yields the palette entry with alpha 255. -/
theorem c3_resolve_color (flags : ImageFlags) (palette : List Rgb) (p : Nat)
    (hp : p < 256) (hlen : palette.length = 256) :
    (resolve_color flags palette p = (0, 0, 0, 0) ↔
      (flags.use_transparency = true ∧ p = 0)) ∧
    (¬ (flags.use_transparency = true ∧ p = 0) →
      resolve_color flags palette p =
        ((palette.getD p ⟨0, 0, 0⟩).r, (palette.getD p ⟨0, 0, 0⟩).g,
         (palette.getD p ⟨0, 0, 0⟩).b, 255)) := by
  constructor
  · unfold resolve_color
    split
    · rename_i hc
      simpa using hc
    · rename_i hc
      simp only [Prod.mk.injEq]
      constructor
      · intro hcontra
        omega
      · intro hcontra
        exact absurd hcontra hc
  · intro hc
    unfold resolve_color
    rw [if_neg hc]

/-- Witness for C3: transparency set, palette of 256 white entries, index 0
resolves transparent; index 1 resolves white opaque. -/
theorem c3_resolve_color_witness :
    (resolve_color ⟨1⟩ (List.replicate 256 ⟨255, 255, 255⟩) 0 = (0, 0, 0, 0) ↔
      (ImageFlags.use_transparency ⟨1⟩ = true ∧ 0 = 0)) ∧
    (¬ (ImageFlags.use_transparency ⟨1⟩ = true ∧ 0 = 0) →
      resolve_color ⟨1⟩ (List.replicate 256 ⟨255, 255, 255⟩) 0 =
        (((List.replicate 256 (⟨255, 255, 255⟩ : Rgb)).getD 0 ⟨0, 0, 0⟩).r,
         ((List.replicate 256 (⟨255, 255, 255⟩ : Rgb)).getD 0 ⟨0, 0, 0⟩).g,
         ((List.replicate 256 (⟨255, 255, 255⟩ : Rgb)).getD 0 ⟨0, 0, 0⟩).b, 255)) :=
  c3_resolve_color ⟨1⟩ (List.replicate 256 ⟨255, 255, 255⟩) 0 (by decide) (by rw [List.length_replicate])


/-! ### Parsing the 32 header bytes (shared by several claims) -/

theorem decode_pid_rest_header (idv flagsw w h : Nat)
    (c0 c1 c2 c3 c4 c5 c6 c7 c8 c9 c10 c11 c12 c13 c14 c15 : Nat) (rest : List Nat)
    (hid : idv < 4294967296) (hf : flagsw < 4294967296)
    (hw : w < 4294967296) (hh : h < 4294967296) :
    decode_pid_rest (le4 idv ++ le4 flagsw ++ le4 w ++ le4 h ++
        c0 :: c1 :: c2 :: c3 :: c4 :: c5 :: c6 :: c7 ::
        c8 :: c9 :: c10 :: c11 :: c12 :: c13 :: c14 :: c15 :: rest) =
      decode_pid_after idv flagsw w h
        [i32be c0 c1 c2 c3, i32be c4 c5 c6 c7, i32be c8 c9 c10 c11, i32be c12 c13 c14 c15]
        rest := by
  unfold decode_pid_rest decode_pid_after
  simp only [List.append_assoc]
  simp only [readU32le_le4 _ _ hid, readU32le_le4 _ _ hf, readU32le_le4 _ _ hw,
    readU32le_le4 _ _ hh, readI32be, i32be]

/-- C8: when the decoded image has no palette, the colour-resolution stage
writes nothing: the standalone output buffer stays entirely zero (its
`ImageBuffer::new` zero-initialised state), and the embedded output buffer
keeps only the width/height prefix followed by zero-initialised RGBA bytes. -/
theorem c8_no_palette_writes_nothing :
    (∀ img : PidImage, img.palette = none →
      pid_image_to_image_buffer img = List.replicate (4 * (img.width * img.height)) 0) ∧
    (∀ (s : List Nat) (img : PidImage), decode_pid_wasm s = some img → img.palette = none →
      write_pid_to_canvas_image_data s =
        some (le4 img.width ++ le4 img.height ++
          List.replicate (4 * (img.width * img.height % 4294967296)) 0)) := by
  constructor
  · intro img h
    unfold pid_image_to_image_buffer
    rw [h]
  · intro s img hdec h
    unfold write_pid_to_canvas_image_data
    rw [hdec]
    simp [h]

/-- Witness for C8: a 1×1 paletteless image, decoded by both variants. -/
theorem c8_no_palette_writes_nothing_witness :
    pid_image_to_image_buffer ⟨0, ⟨0⟩, 1, 1, [0, 0, 0, 0], [7], none⟩ =
      List.replicate (4 * (1 * 1)) 0 ∧
    write_pid_to_canvas_image_data
        (le4 0 ++ le4 0 ++ le4 1 ++ le4 1 ++ List.replicate 16 0 ++ [7]) =
      some (le4 1 ++ le4 1 ++ List.replicate (4 * (1 * 1 % 4294967296)) 0) := by
  constructor
  · exact c8_no_palette_writes_nothing.1 ⟨0, ⟨0⟩, 1, 1, [0, 0, 0, 0], [7], none⟩ rfl
  · exact c8_no_palette_writes_nothing.2
      (le4 0 ++ le4 0 ++ le4 1 ++ le4 1 ++ List.replicate 16 0 ++ [7])
      ⟨0, ⟨0⟩, 1, 1, [0, 0, 0, 0], [7], none⟩ (by decide) rfl

/-! ### Literal streams decompress to themselves (used for claim C10) -/

theorem decompress_default_literal :
    ∀ (body : List Nat), (∀ b ∈ body, b ≤ 192) → ∀ (acc tail : List Nat),
      decompress_default (body ++ tail) (acc.length + body.length) acc =
        some (acc ++ body, tail) := by
  intro body
  induction body with
  | nil =>
    intro _ acc tail
    rw [List.nil_append, decompress_default_done (by simp)]
    simp
  | cons b body ih =>
    intro hb acc tail
    have hb192 : b ≤ 192 := hb b (by simp)
    rw [List.cons_append,
      decompress_default_lit (by simp only [List.length_cons]; omega) (by omega)]
    have hcount : acc.length + (b :: body).length = (acc ++ [b]).length + body.length := by
      simp
      omega
    rw [hcount, ih (fun x hx => hb x (by simp [hx])) (acc ++ [b]) tail]
    simp

/-- C10: the pixel count is the 32-bit wrapping product `width * height`,
with no overflow or capacity check: a header whose mathematical product is a
multiple of `2^32` (for example `width = height = 65536`) decodes with an
EMPTY pixel buffer, and more generally a Default-compressed literal body of
exactly `width * height mod 2^32` bytes decodes successfully — no too-large
error exists anywhere on the decode path. -/
theorem c10_pixel_count_wraps_mod_2_32 (idv flagsw w h : Nat)
    (c0 c1 c2 c3 c4 c5 c6 c7 c8 c9 c10 c11 c12 c13 c14 c15 : Nat)
    (body rest : List Nat)
    (hid : idv < 4294967296) (hf : flagsw < 4294967296)
    (hw : w < 4294967296) (hh : h < 4294967296)
    (hcm : ImageFlags.compression_method ⟨flagsw⟩ = CompressionMethod.Default)
    (hpal : ImageFlags.has_palette ⟨flagsw⟩ = false)
    (hbody : body.length = w * h % 4294967296)
    (hlit : ∀ b ∈ body, b ≤ 192) :
    decode_pid_rest (le4 idv ++ le4 flagsw ++ le4 w ++ le4 h ++
        c0 :: c1 :: c2 :: c3 :: c4 :: c5 :: c6 :: c7 ::
        c8 :: c9 :: c10 :: c11 :: c12 :: c13 :: c14 :: c15 :: (body ++ rest)) =
      some (⟨toI32 idv, ⟨flagsw⟩, w, h,
        [i32be c0 c1 c2 c3, i32be c4 c5 c6 c7, i32be c8 c9 c10 c11, i32be c12 c13 c14 c15],
        body, none⟩, rest) := by
  rw [decode_pid_rest_header idv flagsw w h c0 c1 c2 c3 c4 c5 c6 c7 c8 c9 c10 c11 c12 c13 c14
    c15 (body ++ rest) hid hf hw hh]
  unfold decode_pid_after
  have hdec := decompress_default_literal body hlit [] rest
  simp only [List.nil_append, List.length_nil, Nat.zero_add, hbody] at hdec
  simp only [hcm, hdec, hpal]
  simp

/-- Witness for C10: `width = height = 65536`, whose u32 product is 0: the
decode succeeds immediately after the header with an empty pixel buffer. -/
theorem c10_pixel_count_wraps_mod_2_32_witness :
    decode_pid_rest (le4 0 ++ le4 0 ++ le4 65536 ++ le4 65536 ++
        0 :: 0 :: 0 :: 0 :: 0 :: 0 :: 0 :: 0 ::
        0 :: 0 :: 0 :: 0 :: 0 :: 0 :: 0 :: 0 :: ([] ++ [])) =
      some (⟨toI32 0, ⟨0⟩, 65536, 65536,
        [i32be 0 0 0 0, i32be 0 0 0 0, i32be 0 0 0 0, i32be 0 0 0 0], [], none⟩, []) := by
  exact c10_pixel_count_wraps_mod_2_32 0 0 65536 65536 0 0 0 0 0 0 0 0 0 0 0 0 0 0 0 0
    [] [] (by decide) (by decide) (by decide) (by decide) (by decide) (by decide)
    (by decide) (by simp)

/-! ### Claim C4: zero dimensions -/

/-- C4 counterexample: on `c4_input` (width = height = 0, palette flag set)
the decode yields an empty pixel buffer but consumes all 800 input bytes —
the 32 header bytes plus 768 palette bytes — so the cursor does advance past
the 32 header/flags bytes, contrary to the claim. -/
theorem c4_counterexample :
    (decode_pid_rest c4_input).map (fun r => r.1.pixels) = some [] ∧
    (decode_pid_rest c4_input).map (fun r => r.2.length) = some 0 ∧
    c4_input.length = 800 := by
  decide

/-- C4 (amended): a header with `width = 0` or `height = 0` yields an empty
pixel buffer and the decompression stage consumes no bytes; the cursor stops
exactly at the 32 header/flags bytes when the palette flag (0x80) is clear,
but when it is set the palette reader still consumes 768 further bytes. -/
theorem c4_zero_dimensions (idv flagsw w h : Nat)
    (c0 c1 c2 c3 c4 c5 c6 c7 c8 c9 c10 c11 c12 c13 c14 c15 : Nat) (rest : List Nat)
    (hid : idv < 4294967296) (hf : flagsw < 4294967296)
    (hw : w < 4294967296) (hh : h < 4294967296)
    (hwh : w = 0 ∨ h = 0) :
    (ImageFlags.has_palette ⟨flagsw⟩ = false →
      decode_pid_rest (le4 idv ++ le4 flagsw ++ le4 w ++ le4 h ++
          c0 :: c1 :: c2 :: c3 :: c4 :: c5 :: c6 :: c7 ::
          c8 :: c9 :: c10 :: c11 :: c12 :: c13 :: c14 :: c15 :: rest) =
        some (⟨toI32 idv, ⟨flagsw⟩, w, h,
          [i32be c0 c1 c2 c3, i32be c4 c5 c6 c7, i32be c8 c9 c10 c11, i32be c12 c13 c14 c15],
          [], none⟩, rest)) ∧
    (ImageFlags.has_palette ⟨flagsw⟩ = true →
      decode_pid_rest (le4 idv ++ le4 flagsw ++ le4 w ++ le4 h ++
          c0 :: c1 :: c2 :: c3 :: c4 :: c5 :: c6 :: c7 ::
          c8 :: c9 :: c10 :: c11 :: c12 :: c13 :: c14 :: c15 :: rest) =
        match readPalette rest with
        | none => none
        | some (pal, r) =>
          some (⟨toI32 idv, ⟨flagsw⟩, w, h,
            [i32be c0 c1 c2 c3, i32be c4 c5 c6 c7, i32be c8 c9 c10 c11, i32be c12 c13 c14 c15],
            [], some pal⟩, r)) := by
  rw [decode_pid_rest_header idv flagsw w h c0 c1 c2 c3 c4 c5 c6 c7 c8 c9 c10 c11 c12 c13 c14
    c15 rest hid hf hw hh]
  unfold decode_pid_after
  have hc : w * h % 4294967296 = 0 := by
    rcases hwh with rfl | rfl <;> simp
  have hd : decompress_default rest 0 [] = some ([], rest) :=
    decompress_default_done (by simp)
  have hr : decompress_run_length_encoding rest 0 [] = some ([], rest) :=
    decompress_rle_done (by simp)
  constructor
  · intro hp
    cases hcm : ImageFlags.compression_method ⟨flagsw⟩ <;>
      simp [hcm, hc, hd, hr, hp]
  · intro hp
    cases hcm : ImageFlags.compression_method ⟨flagsw⟩ <;>
      simp [hcm, hc, hd, hr, hp]

/-- Witness for C4 (amended): a header with `width = 0`, `height = 7`, no
palette flag, and one trailing byte that the decoder leaves unread. -/
theorem c4_zero_dimensions_witness :
    (ImageFlags.has_palette ⟨0⟩ = false →
      decode_pid_rest (le4 3 ++ le4 0 ++ le4 0 ++ le4 7 ++
          0 :: 0 :: 0 :: 0 :: 0 :: 0 :: 0 :: 0 ::
          0 :: 0 :: 0 :: 0 :: 0 :: 0 :: 0 :: 0 :: [9]) =
        some (⟨toI32 3, ⟨0⟩, 0, 7,
          [i32be 0 0 0 0, i32be 0 0 0 0, i32be 0 0 0 0, i32be 0 0 0 0],
          [], none⟩, [9])) ∧
    (ImageFlags.has_palette ⟨0⟩ = true →
      decode_pid_rest (le4 3 ++ le4 0 ++ le4 0 ++ le4 7 ++
          0 :: 0 :: 0 :: 0 :: 0 :: 0 :: 0 :: 0 ::
          0 :: 0 :: 0 :: 0 :: 0 :: 0 :: 0 :: 0 :: [9]) =
        match readPalette [9] with
        | none => none
        | some (pal, r) =>
          some (⟨toI32 3, ⟨0⟩, 0, 7,
            [i32be 0 0 0 0, i32be 0 0 0 0, i32be 0 0 0 0, i32be 0 0 0 0],
            [], some pal⟩, r)) :=
  c4_zero_dimensions 3 0 0 7 0 0 0 0 0 0 0 0 0 0 0 0 0 0 0 0 [9]
    (by decide) (by decide) (by decide) (by decide) (Or.inl rfl)

/-! ### Claim C5: termination of the decompression loops -/

theorem decompress_default_fuel_adequate :
    ∀ (fuel : Nat) (s : List Nat), s.length ≤ fuel → ∀ count acc,
      decompress_default_fuel fuel s count acc = decompress_default s count acc := by
  intro fuel
  induction fuel with
  | zero =>
    intro s hs count acc
    have hnil : s = [] := List.eq_nil_of_length_eq_zero (Nat.le_zero.mp hs)
    subst hnil
    rfl
  | succ fuel ih =>
    intro s hs count acc
    cases s with
    | nil => rfl
    | cons a rest =>
      simp only [List.length_cons] at hs
      by_cases hlt : acc.length < count
      · by_cases ha : 192 < a
        · cases rest with
          | nil =>
            rw [decompress_default_fuel.eq_def, decompress_default_run_nil hlt ha]
            simp [hlt, ha]
          | cons b rest2 =>
            rw [decompress_default_fuel.eq_def, decompress_default_run hlt ha]
            simp only [if_pos hlt, if_pos ha]
            exact ih rest2 (by simp at hs ⊢; omega) count _
        · rw [decompress_default_fuel.eq_def, decompress_default_lit hlt ha]
          simp only [if_pos hlt, if_neg ha]
          exact ih rest (by omega) count _
      · rw [decompress_default_fuel.eq_def, decompress_default_done hlt]
        simp [hlt]

theorem decompress_rle_fuel_adequate :
    ∀ (fuel : Nat) (s : List Nat), s.length ≤ fuel → ∀ count acc,
      decompress_run_length_encoding_fuel fuel s count acc =
        decompress_run_length_encoding s count acc := by
  intro fuel
  induction fuel with
  | zero =>
    intro s hs count acc
    have hnil : s = [] := List.eq_nil_of_length_eq_zero (Nat.le_zero.mp hs)
    subst hnil
    by_cases hlt : acc.length < count
    · rw [decompress_run_length_encoding_fuel.eq_def, decompress_rle_nil hlt]
      simp [hlt]
    · rw [decompress_run_length_encoding_fuel.eq_def, decompress_rle_done hlt]
      simp [hlt]
  | succ fuel ih =>
    intro s hs count acc
    cases s with
    | nil =>
      by_cases hlt : acc.length < count
      · rw [decompress_run_length_encoding_fuel.eq_def, decompress_rle_nil hlt]
        simp [hlt]
      · rw [decompress_run_length_encoding_fuel.eq_def, decompress_rle_done hlt]
        simp [hlt]
    | cons a rest =>
      simp only [List.length_cons] at hs
      by_cases hlt : acc.length < count
      · by_cases ha : 128 < a
        · rw [decompress_run_length_encoding_fuel.eq_def, decompress_rle_run hlt ha]
          simp only [if_pos hlt, if_pos ha]
          exact ih rest (by omega) count _
        · cases htk : takeExact a rest with
          | none =>
            rw [decompress_run_length_encoding_fuel.eq_def, decompress_rle_lit_none hlt ha htk]
            simp [hlt, ha, htk]
          | some p =>
            obtain ⟨lits, rest2⟩ := p
            have hlens := takeExact_lengths htk
            rw [decompress_run_length_encoding_fuel.eq_def, decompress_rle_lit hlt ha htk]
            simp only [if_pos hlt, if_neg ha, htk]
            exact ih rest2 (by omega) count _
      · rw [decompress_rle_done hlt, decompress_run_length_encoding_fuel.eq_def]
        simp [hlt]

/-- C5: decoding always terminates.  Each decompression loop finishes within
`s.length` iterations — running the loop with any iteration bound of at
least the stream length gives the loop's exact behaviour, because every
iteration consumes at least one stream byte.  In particular a
RunLengthEncoding control byte of 0 emits no pixels yet still consumes one
byte of the stream, and the whole decoder is a total function that either
yields an image or fails. -/
theorem c5_decoding_terminates :
    (∀ (fuel : Nat) (s : List Nat) (count : Nat) (acc : List Nat), s.length ≤ fuel →
      decompress_default_fuel fuel s count acc = decompress_default s count acc) ∧
    (∀ (fuel : Nat) (s : List Nat) (count : Nat) (acc : List Nat), s.length ≤ fuel →
      decompress_run_length_encoding_fuel fuel s count acc =
        decompress_run_length_encoding s count acc) ∧
    (∀ (s : List Nat) (count : Nat) (acc : List Nat), acc.length < count →
      decompress_run_length_encoding (0 :: s) count acc =
        decompress_run_length_encoding s count acc) ∧
    (∀ s : List Nat, decode_pid s = none ∨ ∃ img, decode_pid s = some img) := by
  refine ⟨fun fuel s count acc hs => decompress_default_fuel_adequate fuel s hs count acc,
    fun fuel s count acc hs => decompress_rle_fuel_adequate fuel s hs count acc, ?_, ?_⟩
  · intro s count acc hlt
    rw [decompress_rle_lit hlt (by omega) (show takeExact 0 s = some ([], s) by
      simp [takeExact])]
    simp
  · intro s
    cases h : decode_pid s with
    | none => exact Or.inl rfl
    | some img => exact Or.inr ⟨img, rfl⟩

/-- Witness for C5: concrete instances of all four conjuncts. -/
theorem c5_decoding_terminates_witness :
    decompress_default_fuel 1 [5] 1 [] = decompress_default [5] 1 [] ∧
    decompress_run_length_encoding_fuel 1 [130] 2 [] =
      decompress_run_length_encoding [130] 2 [] ∧
    decompress_run_length_encoding [0, 5] 1 [] = decompress_run_length_encoding [5] 1 [] ∧
    (decode_pid [] = none ∨ ∃ img, decode_pid [] = some img) :=
  ⟨c5_decoding_terminates.1 1 [5] 1 [] (by decide),
   c5_decoding_terminates.2.1 1 [130] 2 [] (by decide),
   c5_decoding_terminates.2.2.1 [5] 1 [] (by decide),
   c5_decoding_terminates.2.2.2 []⟩

/-! ### Claims C6 and C7: encode/decode round trips -/

theorem countRun_le (b : Nat) : ∀ l : List Nat, countRun b l ≤ l.length := by
  intro l
  induction l with
  | nil => simp [countRun]
  | cons x xs ih =>
    by_cases hx : x = b <;> simp [countRun, hx] <;> omega

theorem countRun_cons_self (b : Nat) (l : List Nat) :
    countRun b (b :: l) = countRun b l + 1 := by
  simp [countRun]

theorem take_replicate_of_le_countRun (b : Nat) :
    ∀ (n : Nat) (l : List Nat), n ≤ countRun b l → l.take n = List.replicate n b := by
  intro n
  induction n with
  | zero => intro l _; simp
  | succ n ih =>
    intro l hn
    cases l with
    | nil => simp [countRun] at hn
    | cons x xs =>
      by_cases hx : x = b
      · subst hx
        rw [countRun_cons_self] at hn
        simp [List.take_succ_cons, List.replicate_succ, ih xs (by omega)]
      · simp [countRun, hx] at hn

theorem countNonzero_le : ∀ l : List Nat, countNonzero l ≤ l.length := by
  intro l
  induction l with
  | nil => simp [countNonzero]
  | cons x xs ih =>
    by_cases hx : x = 0 <;> simp [countNonzero, hx] <;> omega

theorem countNonzero_cons_ne {x : Nat} (l : List Nat) (hx : x ≠ 0) :
    countNonzero (x :: l) = countNonzero l + 1 := by
  simp [countNonzero, hx]

theorem takeExact_append {l1 l2 : List Nat} {n : Nat} (h : l1.length = n) :
    takeExact n (l1 ++ l2) = some (l1, l2) := by
  subst h
  unfold takeExact
  simp [List.take_left, List.drop_left]

theorem roundtrip_default_aux :
    ∀ (N : Nat) (l : List Nat), l.length ≤ N → ∀ (acc tail : List Nat),
      decompress_default (encode_default_spec l ++ tail) (acc.length + l.length) acc =
        some (acc ++ l, tail) := by
  intro N
  induction N with
  | zero =>
    intro l hl acc tail
    have hnil : l = [] := List.eq_nil_of_length_eq_zero (Nat.le_zero.mp hl)
    subst hnil
    simp only [encode_default_spec, List.nil_append, List.length_nil]
    rw [decompress_default_done (by simp)]
    simp
  | succ N ih =>
    intro l hl acc tail
    cases l with
    | nil =>
      simp only [encode_default_spec, List.nil_append, List.length_nil]
      rw [decompress_default_done (by simp)]
      simp
    | cons b rest =>
      simp only [List.length_cons] at hl
      simp only [encode_default_spec]
      by_cases hcase : min (countRun b rest + 1) 63 = 1 ∧ b ≤ 192
      · rw [if_pos hcase]
        rw [List.cons_append,
          decompress_default_lit (by simp only [List.length_cons]; omega) (by omega)]
        have hcount : acc.length + (b :: rest).length = (acc ++ [b]).length + rest.length := by
          simp
          omega
        rw [hcount, ih rest (by omega) (acc ++ [b]) tail]
        simp
      · rw [if_neg hcase]
        have hn1 : 1 ≤ min (countRun b rest + 1) 63 := by omega
        have hn63 : min (countRun b rest + 1) 63 ≤ 63 := by omega
        have hncr : min (countRun b rest + 1) 63 ≤ countRun b rest + 1 := by omega
        have hcr : countRun b rest ≤ rest.length := countRun_le b rest
        rw [List.cons_append, List.cons_append,
          decompress_default_run (by simp only [List.length_cons]; omega) (by omega)]
        have h192 : 192 + min (countRun b rest + 1) 63 - 192 =
            min (countRun b rest + 1) 63 := by omega
        rw [h192]
        have hcount : acc.length + (b :: rest).length =
            (acc ++ List.replicate (min (countRun b rest + 1) 63) b).length +
              (rest.drop (min (countRun b rest + 1) 63 - 1)).length := by
          simp only [List.length_append, List.length_replicate, List.length_drop,
            List.length_cons]
          omega
        rw [hcount, ih (rest.drop (min (countRun b rest + 1) 63 - 1))
          (by simp only [List.length_drop]; omega) _ tail]
        have hsplit : List.replicate (min (countRun b rest + 1) 63) b ++
            rest.drop (min (countRun b rest + 1) 63 - 1) = b :: rest := by
          have h1 : (b :: rest).take (min (countRun b rest + 1) 63) =
              List.replicate (min (countRun b rest + 1) 63) b :=
            take_replicate_of_le_countRun b _ (b :: rest)
              (by rw [countRun_cons_self]; omega)
          have h2 : (b :: rest).drop (min (countRun b rest + 1) 63) =
              rest.drop (min (countRun b rest + 1) 63 - 1) := by
            obtain ⟨m, hm⟩ : ∃ m, min (countRun b rest + 1) 63 = m + 1 :=
              ⟨min (countRun b rest + 1) 63 - 1, by omega⟩
            rw [hm]
            simp
          rw [← h1, ← h2, List.take_append_drop]
        rw [List.append_assoc, hsplit]

/-- C6: for every index buffer, decoding (with the Default algorithm, at a
pixel count equal to the buffer length) the stream produced by the
spec-described Default-scheme encoder reproduces the buffer exactly and
consumes the whole stream. -/
theorem c6_roundtrip_default (l : List Nat) :
    decompress_default (encode_default_spec l) l.length [] = some (l, []) := by
  have h := roundtrip_default_aux l.length l le_rfl [] []
  simpa using h

theorem roundtrip_rle_aux :
    ∀ (N : Nat) (l : List Nat), l.length ≤ N → ∀ (acc tail : List Nat),
      decompress_run_length_encoding (encode_rle_spec l ++ tail) (acc.length + l.length) acc =
        some (acc ++ l, tail) := by
  intro N
  induction N with
  | zero =>
    intro l hl acc tail
    have hnil : l = [] := List.eq_nil_of_length_eq_zero (Nat.le_zero.mp hl)
    subst hnil
    simp only [encode_rle_spec, List.nil_append, List.length_nil]
    rw [decompress_rle_done (by simp)]
    simp
  | succ N ih =>
    intro l hl acc tail
    cases l with
    | nil =>
      simp only [encode_rle_spec, List.nil_append, List.length_nil]
      rw [decompress_rle_done (by simp)]
      simp
    | cons b rest =>
      simp only [List.length_cons] at hl
      simp only [encode_rle_spec]
      by_cases hb : b = 0
      · subst hb
        rw [if_pos rfl]
        have hj1 : 1 ≤ min (countRun 0 rest + 1) 127 := by omega
        have hj127 : min (countRun 0 rest + 1) 127 ≤ 127 := by omega
        have hjcr : min (countRun 0 rest + 1) 127 ≤ countRun 0 rest + 1 := by omega
        have hcr : countRun 0 rest ≤ rest.length := countRun_le 0 rest
        rw [List.cons_append,
          decompress_rle_run (by simp only [List.length_cons]; omega) (by omega)]
        have h128 : 128 + min (countRun 0 rest + 1) 127 - 128 =
            min (countRun 0 rest + 1) 127 := by omega
        rw [h128]
        have hcount : acc.length + (0 :: rest).length =
            (acc ++ List.replicate (min (countRun 0 rest + 1) 127) 0).length +
              ((0 :: rest).drop (min (countRun 0 rest + 1) 127)).length := by
          simp only [List.length_append, List.length_replicate, List.length_drop,
            List.length_cons]
          omega
        rw [hcount, ih ((0 :: rest).drop (min (countRun 0 rest + 1) 127))
          (by simp only [List.length_drop, List.length_cons]; omega) _ tail]
        have hsplit : List.replicate (min (countRun 0 rest + 1) 127) 0 ++
            (0 :: rest).drop (min (countRun 0 rest + 1) 127) = 0 :: rest := by
          have h1 : (0 :: rest).take (min (countRun 0 rest + 1) 127) =
              List.replicate (min (countRun 0 rest + 1) 127) 0 :=
            take_replicate_of_le_countRun 0 _ (0 :: rest)
              (by rw [countRun_cons_self]; omega)
          rw [← h1, List.take_append_drop]
        rw [List.append_assoc, hsplit]
      · rw [if_neg hb]
        have hk1 : 1 ≤ min (countNonzero rest + 1) 128 := by omega
        have hk128 : min (countNonzero rest + 1) 128 ≤ 128 := by omega
        have hcnz : countNonzero rest ≤ rest.length := countNonzero_le rest
        have htklen : ((b :: rest).take (min (countNonzero rest + 1) 128)).length =
            min (countNonzero rest + 1) 128 := by
          simp only [List.length_take, List.length_cons]
          omega
        rw [List.cons_append, List.append_assoc,
          decompress_rle_lit (by simp only [List.length_cons]; omega) (by omega)
            (takeExact_append htklen)]
        have hcount : acc.length + (b :: rest).length =
            (acc ++ (b :: rest).take (min (countNonzero rest + 1) 128)).length +
              ((b :: rest).drop (min (countNonzero rest + 1) 128)).length := by
          simp only [List.length_append, List.length_take, List.length_drop,
            List.length_cons]
          omega
        rw [hcount, ih ((b :: rest).drop (min (countNonzero rest + 1) 128))
          (by simp only [List.length_drop, List.length_cons]; omega) _ tail]
        rw [List.append_assoc, List.take_append_drop]

/-- C7: for every index buffer, decoding (with the RunLengthEncoding
algorithm, at a pixel count equal to the buffer length) the stream produced
by the spec-described RunLengthEncoding-scheme encoder reproduces the buffer
exactly and consumes the whole stream. -/
theorem c7_roundtrip_rle (l : List Nat) :
    decompress_run_length_encoding (encode_rle_spec l) l.length [] = some (l, []) := by
  have h := roundtrip_rle_aux l.length l le_rfl [] []
  simpa using h

/-! ### Claim C2: the standalone and embedded decoders -/

theorem decompress_default_wasm_refines :
    ∀ (s : List Nat) (count : Nat) (acc : List Nat) (out rest : List Nat),
      decompress_default_wasm s count acc = some (out, rest) →
      decompress_default s count acc = some (out, rest) := by
  intro s count acc
  induction s, count, acc using decompress_default_wasm.induct with
  | case1 count acc hlt =>
    intro out rest h
    rw [decompress_default_wasm_nil hlt] at h
    cases h
  | case2 count acc hlt a ha =>
    intro out rest h
    rw [decompress_default_wasm.eq_def] at h
    simp [hlt, ha] at h
  | case3 count acc hlt a ha b rest2 hcap ih =>
    intro out rest h
    rw [decompress_default_wasm_run hlt ha hcap] at h
    rw [decompress_default_run hlt ha]
    exact ih out rest h
  | case4 count acc hlt a ha b rest2 hcap =>
    intro out rest h
    rw [decompress_default_wasm_run_overflow hlt ha hcap] at h
    cases h
  | case5 count acc hlt a rest2 ha ih =>
    intro out rest h
    rw [decompress_default_wasm_lit hlt ha] at h
    rw [decompress_default_lit hlt ha]
    exact ih out rest h
  | case6 s count acc hge =>
    intro out rest h
    rw [decompress_default_wasm_done hge] at h
    rw [decompress_default_done hge]
    exact h

theorem decompress_rle_wasm_refines :
    ∀ (s : List Nat) (count : Nat) (acc : List Nat) (out rest : List Nat),
      decompress_run_length_encoding_wasm s count acc = some (out, rest) →
      decompress_run_length_encoding s count acc = some (out, rest) := by
  suffices haux : ∀ (fuel : Nat) (s : List Nat), s.length ≤ fuel →
      ∀ (count : Nat) (acc out rest : List Nat),
        decompress_run_length_encoding_wasm_fuel fuel s count acc = some (out, rest) →
        decompress_run_length_encoding s count acc = some (out, rest) by
    intro s count acc out rest h
    exact haux s.length s le_rfl count acc out rest h
  intro fuel
  induction fuel with
  | zero =>
    intro s hs count acc out rest h
    have hnil : s = [] := List.eq_nil_of_length_eq_zero (Nat.le_zero.mp hs)
    subst hnil
    rw [decompress_run_length_encoding_wasm_fuel.eq_def] at h
    by_cases hlt : acc.length < count
    · simp [hlt] at h
    · simp only [if_neg hlt, Option.some.injEq, Prod.mk.injEq] at h
      obtain ⟨rfl, rfl⟩ := h
      rw [decompress_rle_done hlt]
  | succ fuel ih =>
    intro s hs count acc out rest h
    cases s with
    | nil =>
      rw [decompress_run_length_encoding_wasm_fuel.eq_def] at h
      by_cases hlt : acc.length < count
      · simp [hlt] at h
      · simp only [if_neg hlt, Option.some.injEq, Prod.mk.injEq] at h
        obtain ⟨rfl, rfl⟩ := h
        rw [decompress_rle_done hlt]
    | cons a rest1 =>
      simp only [List.length_cons] at hs
      rw [decompress_run_length_encoding_wasm_fuel.eq_def] at h
      by_cases hlt : acc.length < count
      · simp only [if_pos hlt] at h
        by_cases ha : 128 < a
        · simp only [if_pos ha] at h
          by_cases hcap : acc.length + (a - 128) ≤ count
          · simp only [if_pos hcap] at h
            rw [decompress_rle_run hlt ha]
            exact ih rest1 (by omega) count _ out rest h
          · simp only [if_neg hcap] at h
            cases h
        · simp only [if_neg ha] at h
          cases htk : takeExact a rest1 with
          | none =>
            rw [htk] at h
            simp at h
          | some p =>
            obtain ⟨lits, rest2⟩ := p
            rw [htk] at h
            have hlens := takeExact_lengths htk
            by_cases hcap : acc.length + a ≤ count
            · simp only [if_pos hcap] at h
              rw [decompress_rle_lit hlt ha htk]
              exact ih rest2 (by omega) count _ out rest h
            · simp only [if_neg hcap] at h
              cases h
      · simp only [if_neg hlt, Option.some.injEq, Prod.mk.injEq] at h
        obtain ⟨rfl, rfl⟩ := h
        rw [decompress_rle_done hlt]

theorem readI32le_of_readI32be {s rest : List Nat} {v : Int}
    (h : readI32be s = some (v, rest)) :
    ∃ v2 : Int, readI32le s = some (v2, rest) := by
  cases s with
  | nil => simp [readI32be] at h
  | cons b0 s0 =>
    cases s0 with
    | nil => simp [readI32be] at h
    | cons b1 s1 =>
      cases s1 with
      | nil => simp [readI32be] at h
      | cons b2 s2 =>
        cases s2 with
        | nil => simp [readI32be] at h
        | cons b3 s3 =>
          simp only [readI32be, Option.some.injEq, Prod.mk.injEq] at h
          exact ⟨toI32 (b0 + 256 * b1 + 65536 * b2 + 16777216 * b3),
            by simp [readI32le, readU32le, h.2]⟩

/-- C2 counterexample: the two variants read the four user values with
opposite byte orders (`get_i32`, big endian, in the standalone converter;
`get_pid_data_i32_le`, little endian, in the embedded variant), so on an
input whose first user value bytes are `[0,0,0,1]` they decode to different
images — `user_values[0]` is 1 in one and 16777216 in the other. -/
theorem c2_counterexample :
    (decode_pid (le4 0 ++ le4 0 ++ le4 1 ++ le4 1 ++
      [0, 0, 0, 1] ++ List.replicate 12 0 ++ [7])).map (fun img => img.user_values) =
        some [1, 0, 0, 0] ∧
    (decode_pid_wasm (le4 0 ++ le4 0 ++ le4 1 ++ le4 1 ++
      [0, 0, 0, 1] ++ List.replicate 12 0 ++ [7])).map (fun img => img.user_values) =
        some [16777216, 0, 0, 0] ∧
    decode_pid (le4 0 ++ le4 0 ++ le4 1 ++ le4 1 ++
        [0, 0, 0, 1] ++ List.replicate 12 0 ++ [7]) ≠
      decode_pid_wasm (le4 0 ++ le4 0 ++ le4 1 ++ le4 1 ++
        [0, 0, 0, 1] ++ List.replicate 12 0 ++ [7]) := by
  refine ⟨by decide, by decide, ?_⟩
  intro hcontra
  have h1 : (decode_pid (le4 0 ++ le4 0 ++ le4 1 ++ le4 1 ++
      [0, 0, 0, 1] ++ List.replicate 12 0 ++ [7])).map (fun img => img.user_values) =
        some [1, 0, 0, 0] := by decide
  rw [hcontra] at h1
  have h2 : (decode_pid_wasm (le4 0 ++ le4 0 ++ le4 1 ++ le4 1 ++
      [0, 0, 0, 1] ++ List.replicate 12 0 ++ [7])).map (fun img => img.user_values) =
        some [16777216, 0, 0, 0] := by decide
  rw [h1] at h2
  cases h2

/-- C2 (amended): whenever both variants decode an input successfully, the
decoded images agree on id, flags, width, height, the pixel-index buffer and
the palette; only the user values can differ (opposite byte order, see the
counterexample).  The success domains also differ: the embedded variant
additionally fails when a run overshoots its fixed pixel buffer. -/
theorem c2_decoders_agree_except_user_values :
    ∀ (s : List Nat) (img1 img2 : PidImage),
      decode_pid s = some img1 → decode_pid_wasm s = some img2 →
      img1.id = img2.id ∧ img1.flags = img2.flags ∧ img1.width = img2.width ∧
      img1.height = img2.height ∧ img1.pixels = img2.pixels ∧
      img1.palette = img2.palette := by
  intro s img1 img2 h1 h2
  simp only [decode_pid] at h1
  cases hr : decode_pid_rest s with
  | none =>
    rw [hr] at h1
    cases h1
  | some pr =>
    obtain ⟨i1, rem⟩ := pr
    rw [hr] at h1
    simp only [Option.map_some', Option.some.injEq] at h1
    subst h1
    simp only [decode_pid_rest] at hr
    simp only [decode_pid_wasm] at h2
    cases hu0 : readU32le s with
    | none =>
      simp only [hu0] at hr
      cases hr
    | some p0 =>
      obtain ⟨idu, s1⟩ := p0
      simp only [hu0] at hr
      have hi0 : readI32le s = some (toI32 idu, s1) := by simp [readI32le, hu0]
      simp only [hi0] at h2
      cases hu1 : readU32le s1 with
      | none =>
        simp only [hu1] at hr
        cases hr
      | some p1 =>
        obtain ⟨flagsw, s2⟩ := p1
        simp only [hu1] at hr h2
        cases hu2 : readU32le s2 with
        | none =>
          simp only [hu2] at hr
          cases hr
        | some p2 =>
          obtain ⟨wid, s3⟩ := p2
          simp only [hu2] at hr h2
          cases hu3 : readU32le s3 with
          | none =>
            simp only [hu3] at hr
            cases hr
          | some p3 =>
            obtain ⟨hgt, s4⟩ := p3
            simp only [hu3] at hr h2
            cases hq0 : readI32be s4 with
            | none =>
              simp only [hq0] at hr
              cases hr
            | some q0 =>
              obtain ⟨v0, s5⟩ := q0
              simp only [hq0] at hr
              obtain ⟨x0, hx0⟩ := readI32le_of_readI32be hq0
              simp only [hx0] at h2
              cases hq1 : readI32be s5 with
              | none =>
                simp only [hq1] at hr
                cases hr
              | some q1 =>
                obtain ⟨v1, s6⟩ := q1
                simp only [hq1] at hr
                obtain ⟨x1, hx1⟩ := readI32le_of_readI32be hq1
                simp only [hx1] at h2
                cases hq2 : readI32be s6 with
                | none =>
                  simp only [hq2] at hr
                  cases hr
                | some q2 =>
                  obtain ⟨v2, s7⟩ := q2
                  simp only [hq2] at hr
                  obtain ⟨x2, hx2⟩ := readI32le_of_readI32be hq2
                  simp only [hx2] at h2
                  cases hq3 : readI32be s7 with
                  | none =>
                    simp only [hq3] at hr
                    cases hr
                  | some q3 =>
                    obtain ⟨v3, s8⟩ := q3
                    simp only [hq3] at hr
                    obtain ⟨x3, hx3⟩ := readI32le_of_readI32be hq3
                    simp only [hx3] at h2
                    cases hcm : ImageFlags.compression_method ⟨flagsw⟩ with
                    | Default =>
                      simp only [hcm] at hr h2
                      cases hdw : decompress_default_wasm s8
                          (wid * hgt % 4294967296) [] with
                      | none =>
                        simp only [hdw] at h2
                        cases h2
                      | some pd =>
                        obtain ⟨pix, s9⟩ := pd
                        simp only [hdw] at h2
                        simp only [decompress_default_wasm_refines _ _ _ _ _ hdw] at hr
                        cases hpb : ImageFlags.has_palette ⟨flagsw⟩ with
                        | false =>
                          simp only [hpb, Bool.false_eq_true, if_false,
                            Option.some.injEq, Prod.mk.injEq] at hr h2
                          obtain ⟨h1a, _⟩ := hr
                          subst h1a
                          subst h2
                          exact ⟨rfl, rfl, rfl, rfl, rfl, rfl⟩
                        | true =>
                          simp only [hpb, if_true] at hr h2
                          cases hpal : readPalette s9 with
                          | none =>
                            simp only [hpal] at hr
                            cases hr
                          | some pp =>
                            obtain ⟨pal, s10⟩ := pp
                            simp only [hpal] at hr h2
                            simp only [Option.some.injEq, Prod.mk.injEq] at hr h2
                            obtain ⟨h1a, _⟩ := hr
                            subst h1a
                            subst h2
                            exact ⟨rfl, rfl, rfl, rfl, rfl, rfl⟩
                    | RunLengthEncoding =>
                      simp only [hcm] at hr h2
                      cases hdw : decompress_run_length_encoding_wasm s8
                          (wid * hgt % 4294967296) [] with
                      | none =>
                        simp only [hdw] at h2
                        cases h2
                      | some pd =>
                        obtain ⟨pix, s9⟩ := pd
                        simp only [hdw] at h2
                        simp only [decompress_rle_wasm_refines _ _ _ _ _ hdw] at hr
                        cases hpb : ImageFlags.has_palette ⟨flagsw⟩ with
                        | false =>
                          simp only [hpb, Bool.false_eq_true, if_false,
                            Option.some.injEq, Prod.mk.injEq] at hr h2
                          obtain ⟨h1a, _⟩ := hr
                          subst h1a
                          subst h2
                          exact ⟨rfl, rfl, rfl, rfl, rfl, rfl⟩
                        | true =>
                          simp only [hpb, if_true] at hr h2
                          cases hpal : readPalette s9 with
                          | none =>
                            simp only [hpal] at hr
                            cases hr
                          | some pp =>
                            obtain ⟨pal, s10⟩ := pp
                            simp only [hpal] at hr h2
                            simp only [Option.some.injEq, Prod.mk.injEq] at hr h2
                            obtain ⟨h1a, _⟩ := hr
                            subst h1a
                            subst h2
                            exact ⟨rfl, rfl, rfl, rfl, rfl, rfl⟩

/-- Witness for C2 (amended): a 1×1 paletteless input both variants decode. -/
theorem c2_decoders_agree_except_user_values_witness :
    (⟨0, ⟨0⟩, 1, 1, [0, 0, 0, 0], [9], none⟩ : PidImage).id =
      (⟨0, ⟨0⟩, 1, 1, [0, 0, 0, 0], [9], none⟩ : PidImage).id ∧
    (⟨0, ⟨0⟩, 1, 1, [0, 0, 0, 0], [9], none⟩ : PidImage).flags =
      (⟨0, ⟨0⟩, 1, 1, [0, 0, 0, 0], [9], none⟩ : PidImage).flags ∧
    (⟨0, ⟨0⟩, 1, 1, [0, 0, 0, 0], [9], none⟩ : PidImage).width =
      (⟨0, ⟨0⟩, 1, 1, [0, 0, 0, 0], [9], none⟩ : PidImage).width ∧
    (⟨0, ⟨0⟩, 1, 1, [0, 0, 0, 0], [9], none⟩ : PidImage).height =
      (⟨0, ⟨0⟩, 1, 1, [0, 0, 0, 0], [9], none⟩ : PidImage).height ∧
    (⟨0, ⟨0⟩, 1, 1, [0, 0, 0, 0], [9], none⟩ : PidImage).pixels =
      (⟨0, ⟨0⟩, 1, 1, [0, 0, 0, 0], [9], none⟩ : PidImage).pixels ∧
    (⟨0, ⟨0⟩, 1, 1, [0, 0, 0, 0], [9], none⟩ : PidImage).palette =
      (⟨0, ⟨0⟩, 1, 1, [0, 0, 0, 0], [9], none⟩ : PidImage).palette :=
  c2_decoders_agree_except_user_values
    (le4 0 ++ le4 0 ++ le4 1 ++ le4 1 ++ List.replicate 16 0 ++ [9])
    ⟨0, ⟨0⟩, 1, 1, [0, 0, 0, 0], [9], none⟩
    ⟨0, ⟨0⟩, 1, 1, [0, 0, 0, 0], [9], none⟩
    (by decide) (by decide)

/-! ### Claim C9: hint flag bits never influence decoding -/

theorem flags_bit_accessors (f : Nat) :
    ImageFlags.use_transparency ⟨f⟩ = f.testBit 0 ∧
    (ImageFlags.compression_method ⟨f⟩ =
      if f.testBit 5 then CompressionMethod.RunLengthEncoding
      else CompressionMethod.Default) ∧
    ImageFlags.has_palette ⟨f⟩ = f.testBit 7 := by
  refine ⟨?_, ?_, ?_⟩
  · have h := Nat.and_two_pow f 0
    unfold ImageFlags.use_transparency
    simp only [pow_zero, Nat.mul_one] at h
    rw [h]
    cases htb : f.testBit 0 <;> simp
  · have h := Nat.and_two_pow f 5
    unfold ImageFlags.compression_method
    norm_num at h
    rw [h]
    cases htb : f.testBit 5 <;> simp
  · have h := Nat.and_two_pow f 7
    unfold ImageFlags.has_palette
    norm_num at h
    rw [h]
    cases htb : f.testBit 7 <;> simp

theorem pid_image_to_image_buffer_congr (img1 img2 : PidImage)
    (hw : img1.width = img2.width) (hh : img1.height = img2.height)
    (hp : img1.pixels = img2.pixels) (hpal : img1.palette = img2.palette)
    (htr : img1.flags.use_transparency = img2.flags.use_transparency) :
    pid_image_to_image_buffer img1 = pid_image_to_image_buffer img2 := by
  unfold pid_image_to_image_buffer rgbaQuads resolve_color
  simp only [hw, hh, hp, hpal, htr]

/-- C9: the hint flag bits — 0x02, 0x04, 0x08, 0x10 and 0x40 — never
influence decoding: two inputs identical except in those bits of the flag
word decode to the same pixel-index buffer, the same palette, and the same
RGBA output buffer (only bits 0x01, 0x20 and 0x80 are consumed on the decode
path). -/
theorem c9_hint_bits_never_influence_decoding (idv f1 f2 : Nat) (tail : List Nat)
    (hid : idv < 4294967296) (hf1 : f1 < 4294967296) (hf2 : f2 < 4294967296)
    (hbits : ∀ i : Nat, i ≠ 1 → i ≠ 2 → i ≠ 3 → i ≠ 4 → i ≠ 6 →
      f1.testBit i = f2.testBit i) :
    Option.map (fun img => (img.pixels, img.palette, pid_image_to_image_buffer img))
        (decode_pid (le4 idv ++ le4 f1 ++ tail)) =
      Option.map (fun img => (img.pixels, img.palette, pid_image_to_image_buffer img))
        (decode_pid (le4 idv ++ le4 f2 ++ tail)) := by
  obtain ⟨htr1, hcm1, hhp1⟩ := flags_bit_accessors f1
  obtain ⟨htr2, hcm2, hhp2⟩ := flags_bit_accessors f2
  have hb0 := hbits 0 (by omega) (by omega) (by omega) (by omega) (by omega)
  have hb5 := hbits 5 (by omega) (by omega) (by omega) (by omega) (by omega)
  have hb7 := hbits 7 (by omega) (by omega) (by omega) (by omega) (by omega)
  have htr : ImageFlags.use_transparency ⟨f1⟩ = ImageFlags.use_transparency ⟨f2⟩ := by
    rw [htr1, htr2, hb0]
  have hcm : ImageFlags.compression_method ⟨f1⟩ = ImageFlags.compression_method ⟨f2⟩ := by
    rw [hcm1, hcm2, hb5]
  have hhp : ImageFlags.has_palette ⟨f1⟩ = ImageFlags.has_palette ⟨f2⟩ := by
    rw [hhp1, hhp2, hb7]
  simp only [decode_pid, Option.map_map, List.append_assoc]
  simp only [decode_pid_rest]
  simp only [readU32le_le4 _ _ hid, readU32le_le4 _ _ hf1, readU32le_le4 _ _ hf2]
  cases hw : readU32le tail with
  | none => rfl
  | some pw =>
    obtain ⟨wid, s3⟩ := pw
    simp only [hw]
    cases hh : readU32le s3 with
    | none => rfl
    | some ph =>
      obtain ⟨hgt, s4⟩ := ph
      simp only [hh]
      cases hq0 : readI32be s4 with
      | none => rfl
      | some q0 =>
        obtain ⟨v0, s5⟩ := q0
        simp only [hq0]
        cases hq1 : readI32be s5 with
        | none => rfl
        | some q1 =>
          obtain ⟨v1, s6⟩ := q1
          simp only [hq1]
          cases hq2 : readI32be s6 with
          | none => rfl
          | some q2 =>
            obtain ⟨v2, s7⟩ := q2
            simp only [hq2]
            cases hq3 : readI32be s7 with
            | none => rfl
            | some q3 =>
              obtain ⟨v3, s8⟩ := q3
              simp only [hq3]
              rw [hcm]
              cases hcmv : ImageFlags.compression_method ⟨f2⟩ with
              | Default =>
                simp only [hcmv]
                cases hd : decompress_default s8 (wid * hgt % 4294967296) [] with
                | none => rfl
                | some pd =>
                  obtain ⟨pix, s9⟩ := pd
                  simp only [hd]
                  rw [hhp]
                  cases hpv : ImageFlags.has_palette ⟨f2⟩ with
                  | false =>
                    simp only [hpv, Bool.false_eq_true, if_false, Option.map_some',
                      Function.comp_apply, Option.some.injEq, Prod.mk.injEq]
                    refine ⟨trivial, trivial, ?_⟩
                    exact pid_image_to_image_buffer_congr _ _ rfl rfl rfl rfl htr
                  | true =>
                    simp only [hpv, if_true]
                    cases hpal : readPalette s9 with
                    | none => rfl
                    | some pp =>
                      obtain ⟨pal, s10⟩ := pp
                      simp only [hpal, Option.map_some', Function.comp_apply,
                        Option.some.injEq, Prod.mk.injEq]
                      refine ⟨trivial, trivial, ?_⟩
                      exact pid_image_to_image_buffer_congr _ _ rfl rfl rfl rfl htr
              | RunLengthEncoding =>
                simp only [hcmv]
                cases hd : decompress_run_length_encoding s8 (wid * hgt % 4294967296) [] with
                | none => rfl
                | some pd =>
                  obtain ⟨pix, s9⟩ := pd
                  simp only [hd]
                  rw [hhp]
                  cases hpv : ImageFlags.has_palette ⟨f2⟩ with
                  | false =>
                    simp only [hpv, Bool.false_eq_true, if_false, Option.map_some',
                      Function.comp_apply, Option.some.injEq, Prod.mk.injEq]
                    refine ⟨trivial, trivial, ?_⟩
                    exact pid_image_to_image_buffer_congr _ _ rfl rfl rfl rfl htr
                  | true =>
                    simp only [hpv, if_true]
                    cases hpal : readPalette s9 with
                    | none => rfl
                    | some pp =>
                      obtain ⟨pal, s10⟩ := pp
                      simp only [hpal, Option.map_some', Function.comp_apply,
                        Option.some.injEq, Prod.mk.injEq]
                      refine ⟨trivial, trivial, ?_⟩
                      exact pid_image_to_image_buffer_congr _ _ rfl rfl rfl rfl htr

/-- Witness for C9: flag words 0 and 0x5E (all five hint bits toggled)
decode a 1×1 image to the same pixels, palette and RGBA output. -/
theorem c9_hint_bits_never_influence_decoding_witness :
    Option.map (fun img => (img.pixels, img.palette, pid_image_to_image_buffer img))
        (decode_pid (le4 7 ++ le4 0 ++ (le4 1 ++ le4 1 ++ List.replicate 16 0 ++ [7]))) =
      Option.map (fun img => (img.pixels, img.palette, pid_image_to_image_buffer img))
        (decode_pid (le4 7 ++ le4 94 ++ (le4 1 ++ le4 1 ++ List.replicate 16 0 ++ [7]))) := by
  refine c9_hint_bits_never_influence_decoding 7 0 94
    (le4 1 ++ le4 1 ++ List.replicate 16 0 ++ [7])
    (by decide) (by decide) (by decide) ?_
  intro i h1 h2 h3 h4 h6
  simp only [Nat.zero_testBit]
  by_cases hi : i < 7
  · interval_cases i
    all_goals first
      | decide
      | simp_all
  · have h94 : (94 : Nat) < 2 ^ i := by
      calc (94 : Nat) < 2 ^ 7 := by norm_num
        _ ≤ 2 ^ i := Nat.pow_le_pow_right (by norm_num) (by omega)
    rw [Nat.testBit_lt_two_pow h94]
